import Mathlib

/-!
Verification of the business-strategy-generator repository.

This file embeds the three source files of the repository:

* the main page (plan normalizer `coercePlan` / `toStrArray`, and the
  `onGenerate` network boundary) — namespace `Gen`;
* the calendar page (`normalizeBullets`, `planId`, `chunkEvenly`,
  `buildDays`, completion-state reset and the write-through persistence
  effect) — namespace `Cal`;
* the server route (`ensureArrayOfStrings` and the server-side
  `coercePlan`) — namespace `Api`.

Dynamic JavaScript values are embedded as the inductive `JsVal`
(numbers are modelled as integers; the claims under study touch no
fractional values).  Browser `localStorage` is modelled as a map from
keys to optional string values.  Impure ingredients (fresh ids from
`Date.now()`/`Math.random()`, the current date used only inside date
labels, `JSON.stringify` of a plan) are passed as explicit parameters;
no claim depends on their values.
-/

/-- A JSON-ish runtime value, the shallow embedding of an untyped
JavaScript value.  `vNull` stands for both `null` and `undefined`
(every site in the sources treats the two alike: optional chaining,
`??`, truthiness). -/
inductive JsVal where
  | vNull
  | vBool (b : Bool)
  | vNum (n : Int)
  | vStr (s : String)
  | vArr (elems : List JsVal)
  | vObj (fields : List (String × JsVal))

namespace JsVal

/-- Property access `v?.k`: field lookup on objects, `undefined`
otherwise (and for a missing field). -/
def getF : JsVal → String → JsVal
  | .vObj fields, k =>
    match fields.find? (fun p => p.1 == k) with
    | some p => p.2
    | none => .vNull
  | _, _ => .vNull

def isArr : JsVal → Bool
  | .vArr _ => true
  | _ => false

def isStr : JsVal → Bool
  | .vStr _ => true
  | _ => false

/-- JavaScript truthiness. -/
def jsTruthy : JsVal → Bool
  | .vNull => false
  | .vBool b => b
  | .vNum n => n != 0
  | .vStr s => s != ""
  | .vArr _ => true
  | .vObj _ => true

/-- `typeof v === "object"` (true for objects, arrays and `null`). -/
def typeofObj : JsVal → Bool
  | .vNull => true
  | .vArr _ => true
  | .vObj _ => true
  | _ => false

end JsVal

/-- `a ?? b`: `b` when `a` is `null`/`undefined`, else `a`. -/
def jsOr (a b : JsVal) : JsVal :=
  match a with
  | .vNull => b
  | _ => a

/-- `a || b` on strings (the sources only apply `||` to values already
coerced to strings): the left operand unless it is empty. -/
def strOr (a b : String) : String :=
  if a = "" then b else a

mutual

/-- `String(x ?? "")`, the stringification used by the calendar page's
bullet coercion.  `vNull` covers the `?? ""` guard; arrays render as the
comma-join of their elements and plain objects as `[object Object]`,
following JavaScript `toString`. -/
def jsToString : JsVal → String
  | .vNull => ""
  | .vBool b => cond b "true" "false"
  | .vNum n => toString n
  | .vStr s => s
  | .vArr xs => jsToStringList xs
  | .vObj _ => "[object Object]"

/-- `Array.prototype.join(",")` over the stringified elements
(`null`/`undefined` elements render empty, as in JavaScript). -/
def jsToStringList : List JsVal → String
  | [] => ""
  | [x] => jsToString x
  | x :: y :: xs => jsToString x ++ "," ++ jsToStringList (y :: xs)

end

/-- A list paired with 0-based (or `n`-based) indices, the embedding of
an indexed `for` loop / `Array.prototype.map((x, i) => ...)`. -/
def withIdx {α : Type} : List α → Nat → List (Nat × α)
  | [], _ => []
  | a :: as, n => (n, a) :: withIdx as (n + 1)

/-- `s.trim()`: drop leading and trailing whitespace.  Implemented over
the character list (rather than with `String.trim`, whose well-founded
byte-position recursion the kernel cannot reduce) so that concrete
instances evaluate; ASCII whitespace, like `Char.isWhitespace`. -/
def jsTrim (s : String) : String :=
  String.mk (((s.toList.dropWhile Char.isWhitespace).reverse.dropWhile
    Char.isWhitespace).reverse)

/-- `s.split("\n")`: split on newline characters, keeping empty
segments, like `String.splitOn` but kernel-reducible. -/
def splitNl (s : String) : List String :=
  (s.toList.splitOn '\n').map String.mk

/-- `typeof v === "string" ? v.trim() : ""` (called `safeStr` on the
main page and `cleanStr` in the server route). -/
def safeStr : JsVal → String
  | .vStr s => jsTrim s
  | _ => ""

/-- One character of the class `[-•\d.)]` in the bullet-marker regex. -/
def isMarkerChar (c : Char) : Bool :=
  c == '-' || c == '•' || c.isDigit || c == '.' || c == ')'

/-- `x.replace(/^\s*[-•\d.)]+\s*/, "")`: if, after optional leading
whitespace, the string starts with at least one marker character, drop
that whitespace, the maximal marker run and the following whitespace;
otherwise the string is returned unchanged (the regex is anchored and
replaced once, and no whitespace character is a marker character, so no
backtracking can produce a different match). -/
def stripMarker (s : String) : String :=
  let cs := s.toList.dropWhile Char.isWhitespace
  if cs.head?.any isMarkerChar then
    String.mk ((cs.dropWhile isMarkerChar).dropWhile Char.isWhitespace)
  else s

namespace Gen

/-- `toStrArray` from the main page: the client-side bullet coercion.
Arrays keep only their (trimmed, non-empty) *string* elements — a
non-string element becomes `""` via `safeStr` and is dropped by
`filter(Boolean)`.  A single string is split on newlines, trimmed,
empties dropped, and a leading bullet/numbering marker stripped from
each line.  Anything else yields `[]`. -/
def toStrArray : JsVal → List String
  | .vArr xs => (xs.map safeStr).filter (fun s => s != "")
  | .vStr s =>
    (((splitNl s).map jsTrim).filter (fun x => x != "")).map
      (fun x => jsTrim (stripMarker x))
  | _ => []

end Gen

namespace Cal

/-- `normalizeBullets` from the calendar page.  Identical to
`Gen.toStrArray` except on arrays, where every element is *stringified*
(`String(x ?? "")`) and trimmed rather than filtered down to strings. -/
def normalizeBullets : JsVal → List String
  | .vArr xs => (xs.map (fun x => jsTrim (jsToString x))).filter (fun s => s != "")
  | .vStr s =>
    (((splitNl s).map jsTrim).filter (fun x => x != "")).map
      (fun x => jsTrim (stripMarker x))
  | _ => []

end Cal

/-- The spec's bullet coercion `toList` (§4.1.1), modelled from the
spec's words: a list has each element stringified and trimmed with
empties dropped and order preserved; a single string is split on
newlines, trimmed, empties dropped, and a leading bullet/numbering
marker (a run of hyphen / bullet dot / digit / `.` / `)` characters
followed by whitespace) stripped from the start of each line; any other
value yields the empty list.  (The trailing `.trim` mirrors the code
and is a no-op on the already-trimmed lines.) -/
def toListSpec : JsVal → List String
  | .vArr xs => (xs.map (fun x => jsTrim (jsToString x))).filter (fun s => s != "")
  | .vStr s =>
    (((splitNl s).map jsTrim).filter (fun x => x != "")).map
      (fun x => jsTrim (stripMarker x))
  | _ => []

/-- The seven optional business-context input strings. -/
structure Inputs where
  targetCustomer : Option String
  coreOffer : Option String
  differentiator : Option String
  pricePoint : Option String
  geography : Option String
  goal14Day : Option String
  notes : Option String

/-- A normalized plan step (the `Step` type of the main page and the
`PlanStep` type of the server route, which coincide). -/
structure NStep where
  title : String
  summary : String
  whatThisDoes : List String
  howTo : List String
  output : String

/-- A normalized plan (the `Plan` type of the main page). -/
structure NPlan where
  id : String
  createdAt : String
  idea : String
  inputs : Inputs
  steps : List NStep

/-- The empty-default step pushed by the padding loops of both
`coercePlan` variants (`title: Step (length+1)`). -/
def defaultStep (n : Nat) : NStep :=
  ⟨"Step " ++ toString (n + 1), "", [], [], ""⟩

/-- The padding `while (steps.length < 3)` loop shared (textually) by
the main page's and the server route's `coercePlan`. -/
def padSteps (steps : List NStep) : List NStep :=
  if _h : steps.length < 3 then padSteps (steps ++ [defaultStep steps.length])
  else steps
termination_by 3 - steps.length
decreasing_by simp [List.length_append]; omega

/-- `Array.isArray(raw?.steps) ? raw.steps : []`. -/
def rawStepsList (raw : JsVal) : List JsVal :=
  match raw.getF "steps" with
  | .vArr l => l
  | _ => []

/-- First non-empty of two coerced strings, else a fallback that may be
absent (`a || b || c` where `c` is an optional field). -/
def strOr3 (a b : String) (c : Option String) : Option String :=
  if a ≠ "" then some a else if b ≠ "" then some b else c

namespace Gen

/-- The per-step coercion inside the main page's `coercePlan`
(`stepsRaw.slice(0, 3).map((s, i) => ...)`), including the
`what`/`explain`, `how_to`/`checklist` and `deliverable` aliases. -/
def coerceStep (i : Nat) (s : JsVal) : NStep :=
  ⟨ strOr (safeStr (s.getF "title")) ("Step " ++ toString (i + 1)),
    strOr (safeStr (s.getF "summary")) "",
    toStrArray (jsOr (s.getF "whatThisDoes") (jsOr (s.getF "what") (s.getF "explain"))),
    toStrArray (jsOr (s.getF "howTo") (jsOr (s.getF "how_to") (s.getF "checklist"))),
    strOr (safeStr (jsOr (s.getF "output") (s.getF "deliverable"))) "" ⟩

/-- The main page's `coercePlan(raw, ideaFallback, inputsFallback)`,
the spec's `normalize`.  `freshId` stands for the impure
`plan_${Date.now()}_${Math.random()...}` and `nowIso` for
`new Date().toISOString()`.  The function is total: no input makes it
fail, which is the embedding of "must never throw". -/
def coercePlan (raw : JsVal) (ideaFallback : String) (inputsFallback : Inputs)
    (freshId nowIso : String) : NPlan :=
  let id := strOr (safeStr (raw.getF "id")) freshId
  let createdAt := strOr (safeStr (raw.getF "createdAt")) nowIso
  let idea := strOr (safeStr (raw.getF "idea")) ideaFallback
  let inputsRaw :=
    if (raw.getF "inputs").jsTruthy && (raw.getF "inputs").typeofObj
    then raw.getF "inputs" else .vObj []
  let inputs : Inputs :=
    ⟨ strOr3 (safeStr (inputsRaw.getF "targetCustomer")) (safeStr (raw.getF "targetCustomer"))
        inputsFallback.targetCustomer,
      strOr3 (safeStr (inputsRaw.getF "coreOffer")) (safeStr (raw.getF "coreOffer"))
        inputsFallback.coreOffer,
      strOr3 (safeStr (inputsRaw.getF "differentiator")) (safeStr (raw.getF "differentiator"))
        inputsFallback.differentiator,
      strOr3 (safeStr (inputsRaw.getF "pricePoint")) (safeStr (raw.getF "pricePoint"))
        inputsFallback.pricePoint,
      strOr3 (safeStr (inputsRaw.getF "geography")) (safeStr (raw.getF "geography"))
        inputsFallback.geography,
      strOr3 (safeStr (inputsRaw.getF "goal14Day")) (safeStr (raw.getF "goal14Day"))
        inputsFallback.goal14Day,
      strOr3 (safeStr (inputsRaw.getF "notes")) (safeStr (raw.getF "notes"))
        inputsFallback.notes ⟩
  let steps := padSteps ((withIdx ((rawStepsList raw).take 3) 0).map
    (fun p => coerceStep p.1 p.2))
  ⟨id, createdAt, idea, inputs, steps.take 3⟩

end Gen

-- ---------------------------------------------------------------------------
-- Calendar page: plan identity, chunking, day derivation
-- ---------------------------------------------------------------------------

namespace Cal

/-- The calendar page's loosely-typed `Plan` read back from storage
(fields optional, bullets of arbitrary runtime type). -/
structure CStep where
  title : Option String
  whatThisDoes : JsVal
  howTo : JsVal

structure CPlan where
  id : Option String
  createdAt : Option String
  idea : Option String
  steps : Option (List CStep)

/-- A derived calendar day. -/
structure Day where
  day : Nat
  dateLabel : String
  focus : String
  tasks : List String

def dayDflt : Day := ⟨0, "", "", []⟩

/-- One step of the 32-bit FNV-1a loop:
`h ^= code; h = Math.imul(h, 16777619)`, both reduced to the unsigned
32-bit bit pattern. -/
def fnvStep (h code : Nat) : Nat :=
  ((h ^^^ code) * 16777619) % 4294967296

/-- The UTF-16 code units of a string, in order: `charCodeAt` over
`0 ≤ i < length` (characters above `0xFFFF` contribute a surrogate
pair). -/
def utf16Units (s : String) : List Nat :=
  s.toList.flatMap fun c =>
    let v := c.toNat
    if v < 65536 then [v]
    else [55296 + (v - 65536) / 1024, 56320 + (v - 65536) % 1024]

/-- The 32-bit FNV-1a-style hash of `planId` (offset basis
`2166136261 = 0x811c9dc5`, prime `16777619 = 0x01000193`). -/
def fnvHash (s : String) : Nat :=
  (utf16Units s).foldl fnvStep 2166136261

/-- `(h >>> 0).toString(16)`: minimal lowercase hex digits. -/
def toHexStr (n : Nat) : String :=
  String.mk (Nat.toDigits 16 n)

/-- `plan?.id || plan?.idea || "latest"`: the hashed base string.
JavaScript `||` keys on truthiness, so an *empty* `id` falls through to
`idea`, and an empty `idea` to `"latest"`. -/
def planBase (plan : Option CPlan) : String :=
  strOr ((plan.bind (·.id)).getD "") (strOr ((plan.bind (·.idea)).getD "") "latest")

/-- The calendar page's `planId`: plan identity = fixed namespace
tag `plan_` plus the unsigned hex FNV-1a digest of the base string. -/
def planId (plan : Option CPlan) : String :=
  "plan_" ++ toHexStr (fnvHash (planBase plan))

/-- `bsg_calendar_checks_v1_${id}`, the storage key of the completion
mapping for a plan identity. -/
def checksKey (id : String) : String :=
  "bsg_calendar_checks_v1_" ++ id

/-- The body of `chunkEvenly`'s distribution loop:
`for i: out[i % buckets].push(items[i])`, processed left to right. -/
def chunkGo (buckets : Nat) (out : List (List String)) :
    List (Nat × String) → List (List String)
  | [] => out
  | (i, a) :: rest =>
    chunkGo buckets (out.set (i % buckets) (out.getD (i % buckets) [] ++ [a])) rest

/-- `chunkEvenly(items, buckets)`: `buckets` empty lists, returned as-is
for an empty input, else filled round-robin (item `i` appended to
bucket `i % buckets`). -/
def chunkEvenly (items : List String) (buckets : Nat) : List (List String) :=
  let out : List (List String) := List.replicate buckets []
  if items.length = 0 then out
  else chunkGo buckets out (withIdx items 0)

/-- The three canned fallback task lists of `buildDays` (one per step
position), verbatim from the source. -/
def fallback1 : List String :=
  [ "Write your one-liner (who + outcome + why you).",
    "Draft landing page: headline + 3 bullets + proof + CTA.",
    "Write FAQs for top objections.",
    "Clarify pricing/packaging and a single CTA." ]

def fallback2 : List String :=
  [ "Pick ONE channel for the 14-day sprint.",
    "Create 3 hooks (pain/outcome/differentiator).",
    "Do today’s outreach/content block (30–60 min).",
    "Improve based on responses and iterate hooks.",
    "Follow up within 24 hours.",
    "Track: views → leads → conversions." ]

def fallback3 : List String :=
  [ "Collect proof (testimonial/screenshot/case study) and publish it.",
    "Improve activation/onboarding to value fast.",
    "Add a referral ask script and use it.",
    "Review metrics and lock the next sprint." ]

/-- The generic filler task substituted for an empty day bucket. -/
def fillerTask : String := "Execute the next best action from this step."

/-- `steps[i]` of the stored plan (`undefined` when absent / out of
range / `steps` not an array). -/
def stepOf (plan : Option CPlan) (i : Nat) : Option CStep :=
  ((plan.bind (·.steps)).getD [])[i]?

def stepHow (s : Option CStep) : JsVal :=
  (s.map (·.howTo)).getD .vNull

def stepWhat (s : Option CStep) : JsVal :=
  (s.map (·.whatThisDoes)).getD .vNull

/-- A step's candidate task pool:
`[...normalizeBullets(step?.howTo), ...normalizeBullets(step?.whatThisDoes)]`. -/
def stepBullets (s : Option CStep) : List String :=
  normalizeBullets (stepHow s) ++ normalizeBullets (stepWhat s)

/-- `stepN?.title?.trim() || default`. -/
def blockTitle (s : Option CStep) (dflt : String) : String :=
  match s.bind (·.title) with
  | some t => strOr (jsTrim t) dflt
  | none => dflt

/-- `sNBullets.length ? sNBullets : fallbackN`. -/
def blockBullets (s : Option CStep) (fb : List String) : List String :=
  if (stepBullets s).length ≠ 0 then stepBullets s else fb

/-- One entry of the `block` array of `buildDays`. -/
structure Block where
  title : String
  days : Nat
  bullets : List String

/-- The `block` policy array: titles defaulted per position, the fixed
4/6/4 day allocation, pools falling back to the canned lists. -/
def blocks (plan : Option CPlan) : List Block :=
  [ ⟨blockTitle (stepOf plan 0) "Step 1: Positioning", 4,
      blockBullets (stepOf plan 0) fallback1⟩,
    ⟨blockTitle (stepOf plan 1) "Step 2: Acquisition Sprint", 6,
      blockBullets (stepOf plan 1) fallback2⟩,
    ⟨blockTitle (stepOf plan 2) "Step 3: Retention & Proof", 4,
      blockBullets (stepOf plan 2) fallback3⟩ ]

/-- `buckets[i].length ? buckets[i] : [fillerTask]`. -/
def fillTasks (bucket : List String) : List String :=
  if bucket.length ≠ 0 then bucket else [fillerTask]

/-- The inner `for (let i = 0; i < b.days; i++)` loop of `buildDays`,
producing the days of one block starting at day number `n`.  `fmt`
abstracts the date-label computation (`formatDate` applied to today
plus `day - 1`), which is locale- and clock-dependent glue. -/
def blockDays (fmt : Nat → String) (n : Nat) (b : Block) : List Day :=
  let buckets := chunkEvenly b.bullets b.days
  (List.range b.days).map fun i =>
    ⟨n + i, fmt (n + i), b.title, fillTasks (buckets.getD i [])⟩

/-- The outer `for (const b of block)` loop, threading the running day
counter `n`. -/
def buildGo (fmt : Nat → String) (n : Nat) : List Block → List Day
  | [] => []
  | b :: rest => blockDays fmt n b ++ buildGo fmt (n + b.days) rest

/-- `buildDays(plan)`, the spec's `deriveDays`: the 14-day calendar
derivation. -/
def buildDays (fmt : Nat → String) (plan : Option CPlan) : List Day :=
  (buildGo fmt 1 (blocks plan)).take 14

end Cal

-- ---------------------------------------------------------------------------
-- Persistence surface (localStorage) and the stateful operations
-- ---------------------------------------------------------------------------

/-- `localStorage` as a map from keys to optional string values. -/
def Store : Type := String → Option String

def setStore (st : Store) (k v : String) : Store :=
  fun k2 => if k2 = k then some v else st k2

def removeStore (st : Store) (k : String) : Store :=
  fun k2 => if k2 = k then none else st k2

def emptyStore : Store := fun _ => none

def LS_PLAN_KEY : String := "bsg_latest_plan_v1"

namespace Cal

/-- The calendar page's component state relevant to completion
checks. -/
structure CalState where
  plan : Option CPlan
  pid : String
  checks : List (String × Bool)
  store : Store

/-- `JSON.stringify` of a flat string-to-boolean record (insertion
order, no escaping needed for the `d{day}_t{idx}` keys in use). -/
def serializeChecks (cs : List (String × Bool)) : String :=
  "\x7b" ++
    String.intercalate ","
      (cs.map fun p => "\"" ++ p.1 ++ "\":" ++ cond p.2 "true" "false") ++
  "\x7d"

/-- `resetChecks`: `setChecks({})` plus
`localStorage.removeItem(checksKey(pid))`. -/
def resetChecks (st : CalState) : CalState :=
  { st with checks := [], store := removeStore st.store (checksKey st.pid) }

/-- The write-through persistence effect
`useEffect(() => localStorage.setItem(checksKey(pid), JSON.stringify(checks)), [checks, pid])`,
which runs after every commit that changes `checks` (including the
state update performed by `resetChecks`, whose fresh `{}` object is
never reference-equal to the previous state). -/
def persistChecksEffect (st : CalState) : CalState :=
  { st with store := setStore st.store (checksKey st.pid) (serializeChecks st.checks) }

end Cal

namespace Gen

/-- The observable outcome of the single `fetch("/api/generate", ...)`
call: either the transport threw (`e?.message` optional), or a response
arrived with an HTTP ok-flag, a status code and a body that either
parsed to a JSON value or failed to parse
(`resp.json().catch(() => null)`). -/
inductive FetchOutcome where
  | threw (msg : Option String)
  | resp (ok : Bool) (status : Nat) (body : Option JsVal)

/-- The main page's component state relevant to `onGenerate`. -/
structure PageState where
  error : String
  plan : Option NPlan
  store : Store

/-- `onGenerate` from the main page, as a state transformer over the
component state and the persisted store.  `serialize` abstracts
`JSON.stringify`, `freshId`/`nowIso` the impure id/time sources.
The `loading` flag (set and unset around the call) is omitted as it is
restored by `finally`. -/
def onGenerate (serialize : NPlan → String) (freshId nowIso : String)
    (idea : String) (inputs : Inputs) (outcome : FetchOutcome)
    (st : PageState) : PageState :=
  let st := { st with error := "" }
  if jsTrim idea = "" then { st with error := "Type a business idea first." }
  else
    match outcome with
    | .threw msg =>
      { st with error := strOr (msg.getD "") "Something went wrong." }
    | .resp ok status body =>
      let dataTruthy := match body with
        | none => false
        | some v => v.jsTruthy
      if ok = false ∨ dataTruthy = false then
        let data := body.getD .vNull
        { st with error :=
            if (data.getF "error").jsTruthy then jsToString (data.getF "error")
            else "Generate failed (" ++ toString status ++ ")" }
      else
        let nextPlan := coercePlan (body.getD .vNull) (jsTrim idea) inputs freshId nowIso
        { st with plan := some nextPlan,
                  store := setStore st.store LS_PLAN_KEY (serialize nextPlan) }

end Gen

-- ---------------------------------------------------------------------------
-- Server route (src/app/api/generate/route.ts)
-- ---------------------------------------------------------------------------

namespace Api

/-- `cleanStr` from the server route (same body as the page's
`safeStr`). -/
def cleanStr (x : JsVal) : String :=
  match x with
  | .vStr s => jsTrim s
  | _ => ""

/-- `ensureArrayOfStrings`: non-arrays yield `[]` outright — no newline
splitting, no marker stripping; arrays keep their trimmed non-empty
string elements. -/
def ensureArrayOfStrings : JsVal → List String
  | .vArr xs =>
    (xs.map fun v => match v with | .vStr s => jsTrim s | _ => "").filter
      (fun s => s != "")
  | _ => []

/-- A server-side calendar day. -/
structure CalendarDay where
  day : Int
  title : String
  tasks : List String

/-- `typeof d === "object" && d` — objects and arrays, excluding
`null`. -/
def isObjTruthy (v : JsVal) : Bool :=
  v.typeofObj && v.jsTruthy

/-- The per-step coercion of the server route's `coercePlan` (no field
aliases, and bullets through `ensureArrayOfStrings`). -/
def coerceStep (i : Nat) (s : JsVal) : NStep :=
  ⟨ strOr (cleanStr (s.getF "title")) ("Step " ++ toString (i + 1)),
    strOr (cleanStr (s.getF "summary")) "",
    ensureArrayOfStrings (s.getF "whatThisDoes"),
    ensureArrayOfStrings (s.getF "howTo"),
    strOr (cleanStr (s.getF "output")) "" ⟩

/-- The per-day coercion of `raw.calendarDays`. -/
def coerceCalDay (idx : Nat) (d : JsVal) : CalendarDay :=
  ⟨ (match d.getF "day" with | .vNum n => n | _ => Int.ofNat (idx + 1)),
    strOr (cleanStr (d.getF "title")) ("Day " ++ toString (idx + 1)),
    ensureArrayOfStrings (d.getF "tasks") ⟩

/-- The `while (calendarDays.length < 14)` padding loop. -/
def padCalendar (cds : List CalendarDay) : List CalendarDay :=
  if _h : cds.length < 14 then
    padCalendar (cds ++
      [⟨Int.ofNat (cds.length + 1), "Day " ++ toString (cds.length + 1),
        ["Do 30–60 minutes of execution based on your Step plan."]⟩])
  else cds
termination_by 14 - cds.length
decreasing_by simp [List.length_append]; omega

/-- The server route's `PlanObject`.  `inputs` is passed through
unsanitized when `raw.inputs` is a truthy object, so it stays a
`JsVal`. -/
structure PlanObject where
  id : String
  createdAt : String
  idea : String
  inputs : JsVal
  steps : List NStep
  calendarDays : List CalendarDay

/-- The server route's `coercePlan(raw, idea, inputs)`.  `uid` stands
for the impure `uid()` and `nowIso` for `new Date().toISOString()`. -/
def coercePlan (raw : JsVal) (idea : String) (inputs : JsVal)
    (uid nowIso : String) : PlanObject :=
  let stepsRaw := rawStepsList raw
  let steps := padSteps ((withIdx (stepsRaw.take 3) 0).map
    (fun p => coerceStep p.1 p.2))
  let calRaw := match raw.getF "calendarDays" with
    | .vArr l => l
    | _ => []
  let calendarDays := padCalendar
    ((withIdx ((calRaw.filter isObjTruthy).take 14) 0).map
      (fun p => coerceCalDay p.1 p.2))
  ⟨ strOr (cleanStr (raw.getF "id")) uid,
    strOr (cleanStr (raw.getF "createdAt")) nowIso,
    strOr (cleanStr (raw.getF "idea")) idea,
    (if isObjTruthy (raw.getF "inputs") then raw.getF "inputs" else inputs),
    steps, calendarDays ⟩

end Api

-- ---------------------------------------------------------------------------
-- Helper lemmas
-- ---------------------------------------------------------------------------

theorem withIdx_length {α : Type} : ∀ (l : List α) (n : Nat),
    (withIdx l n).length = l.length
  | [], _ => rfl
  | _ :: as, n => by simp [withIdx, withIdx_length as (n + 1)]

theorem withIdx_getElem? {α : Type} : ∀ (l : List α) (n i : Nat),
    (withIdx l n)[i]? = l[i]?.map (fun a => (n + i, a)) := by
  intro l
  induction l with
  | nil => intro n i; simp [withIdx]
  | cons a as ih =>
    intro n i
    cases i with
    | zero => simp [withIdx]
    | succ i =>
      have h : n + 1 + i = n + (i + 1) := by omega
      simp [withIdx, ih (n + 1) i, h]

theorem withIdx_mem {α : Type} (l : List α) (i : Nat) (hi : i < l.length)
    (d : α) : (i, l.getD i d) ∈ withIdx l 0 := by
  have h1 : (withIdx l 0)[i]? = some (i, l.getD i d) := by
    rw [withIdx_getElem?, List.getElem?_eq_getElem hi,
      List.getD_eq_getElem l d hi]
    simp
  have h2 := List.getElem?_eq_some.mp h1
  obtain ⟨h, hget⟩ := h2
  exact hget ▸ List.getElem_mem h

/-- Closed form of the `while (steps.length < 3)` padding loop. -/
theorem padSteps_eq_aux : ∀ (k : Nat) (s : List NStep), 3 - s.length = k →
    padSteps s = s ++ (List.range (3 - s.length)).map
      (fun j => defaultStep (s.length + j)) := by
  intro k
  induction k with
  | zero =>
    intro s hk
    rw [padSteps]
    have h3 : ¬ s.length < 3 := by omega
    simp [h3, hk]
  | succ k ih =>
    intro s hk
    have hlt : s.length < 3 := by omega
    rw [padSteps]
    simp only [hlt, dite_true, dif_pos]
    have hlen : (s ++ [defaultStep s.length]).length = s.length + 1 := by
      simp
    have ih2 := ih (s ++ [defaultStep s.length]) (by omega)
    have hr : 3 - s.length = (3 - (s.length + 1)) + 1 := by omega
    have htail : List.map ((fun j => defaultStep (s.length + j)) ∘ Nat.succ)
        (List.range (3 - (s.length + 1)))
        = List.map (fun j => defaultStep (s.length + 1 + j))
          (List.range (3 - (s.length + 1))) :=
      List.map_congr_left (fun j _ => by
        simp only [Function.comp_apply]
        congr 1
        omega)
    rw [ih2, hlen, hr, List.range_succ_eq_map, List.map_cons, List.map_map,
      htail]
    simp

theorem padSteps_eq (s : List NStep) :
    padSteps s = s ++ (List.range (3 - s.length)).map
      (fun j => defaultStep (s.length + j)) :=
  padSteps_eq_aux (3 - s.length) s rfl

theorem padSteps_length (s : List NStep) (h : s.length ≤ 3) :
    (padSteps s).length = 3 := by
  rw [padSteps_eq]
  simp
  omega

namespace Cal

theorem chunkGo_length (D : Nat) : ∀ (ps : List (Nat × String))
    (out : List (List String)), (chunkGo D out ps).length = out.length := by
  intro ps
  induction ps with
  | nil => intro out; rfl
  | cons p rest ih =>
    intro out
    obtain ⟨i, a⟩ := p
    rw [chunkGo, ih]
    simp

theorem chunkGo_getD (D : Nat) (hD : 0 < D) :
    ∀ (ps : List (Nat × String)) (out : List (List String)),
      out.length = D → ∀ j,
      (chunkGo D out ps).getD j [] =
        out.getD j [] ++ (ps.filter (fun p => p.1 % D = j)).map Prod.snd := by
  intro ps
  induction ps with
  | nil => intro out _ j; simp [chunkGo]
  | cons p rest ih =>
    intro out hout j
    obtain ⟨i, a⟩ := p
    rw [chunkGo]
    have hset : (out.set (i % D) (out.getD (i % D) [] ++ [a])).length = D := by
      simp [hout]
    rw [ih _ hset j]
    have hmod : i % D < out.length := by rw [hout]; exact Nat.mod_lt _ hD
    rcases eq_or_ne (i % D) j with heq | hne
    · subst heq
      have h1 : (out.set (i % D) (out.getD (i % D) [] ++ [a])).getD (i % D) []
          = out.getD (i % D) [] ++ [a] := by
        rw [List.getD_eq_getElem?_getD, List.getElem?_set]
        simp [hmod]
      rw [h1, List.filter_cons]
      simp
    · have h1 : (out.set (i % D) (out.getD (i % D) [] ++ [a])).getD j []
          = out.getD j [] := by
        rw [List.getD_eq_getElem?_getD, List.getElem?_set]
        simp [hne, List.getD_eq_getElem?_getD]
      rw [h1, List.filter_cons]
      simp [hne]

theorem chunkEvenly_length (items : List String) (D : Nat) :
    (chunkEvenly items D).length = D := by
  rw [chunkEvenly]
  split
  · simp
  · rw [chunkGo_length]; simp

theorem chunkEvenly_getD (items : List String) (D : Nat) (hD : 0 < D)
    (j : Nat) :
    (chunkEvenly items D).getD j [] =
      ((withIdx items 0).filter (fun p => p.1 % D = j)).map Prod.snd := by
  rw [chunkEvenly]
  split
  · rename_i hlen
    have : items = [] := List.length_eq_zero.mp hlen
    subst this
    simp [withIdx, List.getD_eq_getElem?_getD, List.getElem?_replicate]
    split <;> rfl
  · rw [chunkGo_getD D hD _ _ (by simp)]
    have : (List.replicate D ([] : List String)).getD j [] = [] := by
      rw [List.getD_eq_getElem?_getD, List.getElem?_replicate]
      split <;> rfl
    rw [this, List.nil_append]

end Cal

theorem withIdx_map_fst {α : Type} : ∀ (l : List α) (n : Nat),
    (withIdx l n).map Prod.fst = List.range' n l.length := by
  intro l
  induction l with
  | nil => intro n; rfl
  | cons a as ih =>
    intro n
    rw [withIdx, List.map_cons, ih (n + 1), List.length_cons,
      List.range'_succ]

theorem succ_div_mod (N D : Nat) (hD : 0 < D) :
    (N % D + 1 = D ∧ (N + 1) % D = 0 ∧ (N + 1) / D = N / D + 1) ∨
    (N % D + 1 < D ∧ (N + 1) % D = N % D + 1 ∧ (N + 1) / D = N / D) := by
  have hda := Nat.div_add_mod N D
  have hmlt : N % D < D := Nat.mod_lt _ hD
  rcases eq_or_lt_of_le (Nat.succ_le_of_lt hmlt) with heq | hlt
  · left
    refine ⟨heq, ?_⟩
    have hmul : D * (N / D + 1) = D * (N / D) + D := by ring
    have h := (Nat.div_mod_unique hD).mpr
      (⟨by omega, hD⟩ : (0 : Nat) + D * (N / D + 1) = N + 1 ∧ 0 < D)
    exact ⟨h.2, h.1⟩
  · right
    refine ⟨hlt, ?_⟩
    have h := (Nat.div_mod_unique hD).mpr
      (⟨by omega, hlt⟩ : (N % D + 1) + D * (N / D) = N + 1 ∧ N % D + 1 < D)
    exact ⟨h.2, h.1⟩

theorem count_mod_range (D j : Nat) (hD : 0 < D) (hj : j < D) :
    ∀ N, ((List.range N).filter (fun i => decide (i % D = j))).length
      = N / D + if j < N % D then 1 else 0 := by
  intro N
  induction N with
  | zero => simp
  | succ N ih =>
    rw [List.range_succ, List.filter_append, List.length_append, ih]
    have hone : (List.filter (fun i => decide (i % D = j)) [N]).length
        = if N % D = j then 1 else 0 := by
      simp only [List.filter_cons, List.filter_nil]
      split <;> simp_all
    rw [hone]
    rcases succ_div_mod N D hD with ⟨h1, h2, h3⟩ | ⟨h1, h2, h3⟩ <;>
      rw [h2, h3] <;> split_ifs <;> omega

theorem withIdx_filter_length (items : List String) (D j : Nat) (hD : 0 < D)
    (hj : j < D) :
    ((withIdx items 0).filter (fun p => decide (p.1 % D = j))).length
      = items.length / D + if j < items.length % D then 1 else 0 := by
  have h1 : List.filter (fun i => decide (i % D = j))
        ((withIdx items 0).map Prod.fst)
      = List.map Prod.fst
        ((withIdx items 0).filter (fun p => decide (p.1 % D = j))) := by
    rw [List.filter_map]
    rfl
  have h2 : ((withIdx items 0).filter (fun p => decide (p.1 % D = j))).length
      = (List.filter (fun i => decide (i % D = j))
          ((withIdx items 0).map Prod.fst)).length := by
    rw [h1, List.length_map]
  rw [h2, withIdx_map_fst, ← List.range_eq_range',
    count_mod_range D j hD hj items.length]

namespace Cal

theorem chunkEvenly_getD_length (items : List String) (D : Nat) (hD : 0 < D)
    (j : Nat) (hj : j < D) :
    ((chunkEvenly items D).getD j []).length
      = items.length / D + if j < items.length % D then 1 else 0 := by
  rw [chunkEvenly_getD items D hD j, List.length_map]
  exact withIdx_filter_length items D j hD hj

theorem chunkEvenly_eq_map (items : List String) (D : Nat) (hD : 0 < D) :
    chunkEvenly items D = (List.range D).map
      (fun j => ((withIdx items 0).filter (fun p => p.1 % D = j)).map
        Prod.snd) := by
  apply List.ext_getElem?
  intro n
  rcases Nat.lt_or_ge n D with hn | hn
  · have h1 : n < (chunkEvenly items D).length := by
      rw [chunkEvenly_length]; exact hn
    rw [List.getElem?_eq_getElem h1, List.getElem?_map, List.getElem?_range hn]
    rw [← List.getD_eq_getElem _ [] h1, chunkEvenly_getD items D hD n]
    rfl
  · have h1 : (chunkEvenly items D).length ≤ n := by
      rw [chunkEvenly_length]; exact hn
    have h2 : ((List.range D).map
        (fun j => ((withIdx items 0).filter (fun p => p.1 % D = j)).map
          Prod.snd)).length ≤ n := by
      simp [hn]
    rw [List.getElem?_eq_none h1, List.getElem?_eq_none h2]

end Cal

theorem sum_const_add_ite (q : Nat) : ∀ (D r : Nat), r ≤ D →
    ((List.range D).map (fun j => q + if j < r then 1 else 0)).sum
      = D * q + r := by
  intro D
  induction D with
  | zero =>
    intro r hr
    interval_cases r
    simp
  | succ D ih =>
    intro r hr
    rw [List.range_succ, List.map_append, List.sum_append]
    rcases Nat.lt_or_ge r (D + 1) with hlt | hge
    · have hr' : r ≤ D := by omega
      rw [ih r hr']
      have hDr : ¬ D < r := by omega
      simp only [List.map_cons, List.map_nil, List.sum_cons, List.sum_nil,
        if_neg hDr]
      rw [Nat.succ_mul]
      omega
    · have hre : r = D + 1 := by omega
      subst hre
      have hmap : (List.range D).map (fun j => q + if j < D + 1 then 1 else 0)
          = (List.range D).map (fun _ => q + 1) :=
        List.map_congr_left (fun a ha => by
          have : a < D := List.mem_range.mp ha
          have hlt2 : a < D + 1 := by omega
          rw [if_pos hlt2])
      have hDD : D < D + 1 := by omega
      rw [hmap, List.map_const', List.length_range]
      simp only [List.map_cons, List.map_nil, List.sum_cons, List.sum_nil,
        if_pos hDD, List.sum_replicate, smul_eq_mul]
      have e1 : D * (q + 1) = D * q + D := by ring
      have e2 : (D + 1) * q = D * q + q := by ring
      omega

namespace Cal

theorem chunkEvenly_sum_length (items : List String) (D : Nat) (hD : 0 < D) :
    ((chunkEvenly items D).map List.length).sum = items.length := by
  rw [chunkEvenly_eq_map items D hD, List.map_map]
  have hmap : ((List.range D).map (List.length ∘ fun j =>
        ((withIdx items 0).filter (fun p => p.1 % D = j)).map Prod.snd))
      = (List.range D).map (fun j =>
          items.length / D + if j < items.length % D then 1 else 0) :=
    List.map_congr_left (fun j hj => by
      have hjD : j < D := List.mem_range.mp hj
      simp only [Function.comp_apply, List.length_map]
      exact withIdx_filter_length items D j hD hjD)
  rw [hmap, sum_const_add_ite _ D (items.length % D)
    (le_of_lt (Nat.mod_lt _ hD))]
  have := Nat.div_add_mod items.length D
  omega

end Cal


namespace Cal

set_option maxHeartbeats 2000000 in
/-- Extraction of each day's task bucket from `buildDays`: day `j` of a
step's segment carries the (filler-substituted) round-robin bucket `j`
of that step's block pool. -/
theorem buildDays_tasks_extract (fmt : Nat → String) (plan : Option CPlan) :
    (∀ j, j < 4 → ((buildDays fmt plan).getD j dayDflt).tasks
      = fillTasks ((chunkEvenly (blockBullets (stepOf plan 0) fallback1) 4).getD j [])) ∧
    (∀ j, j < 6 → ((buildDays fmt plan).getD (4 + j) dayDflt).tasks
      = fillTasks ((chunkEvenly (blockBullets (stepOf plan 1) fallback2) 6).getD j [])) ∧
    (∀ j, j < 4 → ((buildDays fmt plan).getD (10 + j) dayDflt).tasks
      = fillTasks ((chunkEvenly (blockBullets (stepOf plan 2) fallback3) 4).getD j [])) := by
  refine ⟨fun j hj => ?_, fun j hj => ?_, fun j hj => ?_⟩ <;>
    interval_cases j <;> rfl

end Cal

/-- Claim C1: for every plan (including null), `buildDays` returns
exactly 14 Day records, with day numbers 1..14 in increasing order, and
focus labels forming three contiguous segments of lengths 4, 6 and 4 —
one per step (its defaulted title), in step order — independent of the
plan's content. -/
theorem c1_calendar_shape (fmt : Nat → String) (plan : Option Cal.CPlan) :
    (Cal.buildDays fmt plan).length = 14 ∧
    (Cal.buildDays fmt plan).map (fun d => d.day)
      = [1,2,3,4,5,6,7,8,9,10,11,12,13,14] ∧
    (Cal.buildDays fmt plan).map (fun d => d.focus)
      = List.replicate 4 (Cal.blockTitle (Cal.stepOf plan 0) "Step 1: Positioning")
        ++ List.replicate 6 (Cal.blockTitle (Cal.stepOf plan 1) "Step 2: Acquisition Sprint")
        ++ List.replicate 4 (Cal.blockTitle (Cal.stepOf plan 2) "Step 3: Retention & Proof") :=
  ⟨rfl, rfl, rfl⟩

/-- Claim C2: each step's candidate pool is its coerced `howTo` list
followed by its coerced `whatThisDoes` list, and `chunkEvenly` places
pool item `i` in bucket `i % D`, so every item lands in exactly one
bucket (none duplicated or dropped), order is preserved inside each
bucket, and any two bucket sizes differ by at most one (each is
`⌊N/D⌋` or `⌈N/D⌉`). -/
theorem c2_round_robin (items : List String) (D : Nat) (hD : 0 < D)
    (fmt : Nat → String) (plan : Option Cal.CPlan) :
    (Cal.chunkEvenly items D).length = D ∧
    (∀ j, (Cal.chunkEvenly items D).getD j []
      = ((withIdx items 0).filter (fun p => p.1 % D = j)).map Prod.snd) ∧
    (∀ i, i < items.length →
      items.getD i "" ∈ (Cal.chunkEvenly items D).getD (i % D) []) ∧
    (∀ j, j < D → ((Cal.chunkEvenly items D).getD j []).length
      = items.length / D + if j < items.length % D then 1 else 0) ∧
    (((Cal.chunkEvenly items D).map List.length).sum = items.length) ∧
    (∀ j1 j2, j1 < D → j2 < D →
      ((Cal.chunkEvenly items D).getD j1 []).length
        ≤ ((Cal.chunkEvenly items D).getD j2 []).length + 1) ∧
    (∀ j, j < 4 → Cal.stepBullets (Cal.stepOf plan 0) ≠ [] →
      ((Cal.buildDays fmt plan).getD j Cal.dayDflt).tasks
        = Cal.fillTasks ((Cal.chunkEvenly
            (Cal.normalizeBullets (Cal.stepHow (Cal.stepOf plan 0))
              ++ Cal.normalizeBullets (Cal.stepWhat (Cal.stepOf plan 0)))
            4).getD j [])) ∧
    (∀ j, j < 6 → Cal.stepBullets (Cal.stepOf plan 1) ≠ [] →
      ((Cal.buildDays fmt plan).getD (4 + j) Cal.dayDflt).tasks
        = Cal.fillTasks ((Cal.chunkEvenly
            (Cal.normalizeBullets (Cal.stepHow (Cal.stepOf plan 1))
              ++ Cal.normalizeBullets (Cal.stepWhat (Cal.stepOf plan 1)))
            6).getD j [])) ∧
    (∀ j, j < 4 → Cal.stepBullets (Cal.stepOf plan 2) ≠ [] →
      ((Cal.buildDays fmt plan).getD (10 + j) Cal.dayDflt).tasks
        = Cal.fillTasks ((Cal.chunkEvenly
            (Cal.normalizeBullets (Cal.stepHow (Cal.stepOf plan 2))
              ++ Cal.normalizeBullets (Cal.stepWhat (Cal.stepOf plan 2)))
            4).getD j [])) := by
  obtain ⟨hx1, hx2, hx3⟩ := Cal.buildDays_tasks_extract fmt plan
  refine ⟨Cal.chunkEvenly_length items D,
    fun j => Cal.chunkEvenly_getD items D hD j,
    fun i hi => ?_,
    fun j hj => Cal.chunkEvenly_getD_length items D hD j hj,
    Cal.chunkEvenly_sum_length items D hD,
    fun j1 j2 h1 h2 => ?_,
    fun j hj hne => ?_, fun j hj hne => ?_, fun j hj hne => ?_⟩
  · rw [Cal.chunkEvenly_getD items D hD]
    have hmem := withIdx_mem items i hi ""
    have hfil : (i, items.getD i "") ∈
        (withIdx items 0).filter (fun p => p.1 % D = i % D) :=
      List.mem_filter.mpr ⟨hmem, by simp⟩
    exact List.mem_map_of_mem Prod.snd hfil
  · rw [Cal.chunkEvenly_getD_length items D hD j1 h1,
      Cal.chunkEvenly_getD_length items D hD j2 h2]
    split_ifs <;> omega
  · have hb : Cal.blockBullets (Cal.stepOf plan 0) Cal.fallback1
        = Cal.stepBullets (Cal.stepOf plan 0) := by
      rw [Cal.blockBullets, if_pos]
      simpa [List.length_eq_zero] using hne
    rw [hx1 j hj, hb]
    rfl
  · have hb : Cal.blockBullets (Cal.stepOf plan 1) Cal.fallback2
        = Cal.stepBullets (Cal.stepOf plan 1) := by
      rw [Cal.blockBullets, if_pos]
      simpa [List.length_eq_zero] using hne
    rw [hx2 j hj, hb]
    rfl
  · have hb : Cal.blockBullets (Cal.stepOf plan 2) Cal.fallback3
        = Cal.stepBullets (Cal.stepOf plan 2) := by
      rw [Cal.blockBullets, if_pos]
      simpa [List.length_eq_zero] using hne
    rw [hx3 j hj, hb]
    rfl

/-- Claim C7: a day whose round-robin bucket is empty gets exactly the
single filler task; in particular a step-2 pool of three items over the
six allocated days puts item `i` on step-local day `i` (global days
5, 6, 7, i.e. 0-indexed positions 4, 5, 6) and leaves the filler on the
last three days. -/
theorem c7_filler (fmt : Nat → String) (plan : Option Cal.CPlan) :
    (Cal.fillTasks [] = [Cal.fillerTask]) ∧
    (∀ j, j < 4 → ((Cal.buildDays fmt plan).getD j Cal.dayDflt).tasks
      = Cal.fillTasks ((Cal.chunkEvenly
          (Cal.blockBullets (Cal.stepOf plan 0) Cal.fallback1) 4).getD j [])) ∧
    (∀ j, j < 6 → ((Cal.buildDays fmt plan).getD (4 + j) Cal.dayDflt).tasks
      = Cal.fillTasks ((Cal.chunkEvenly
          (Cal.blockBullets (Cal.stepOf plan 1) Cal.fallback2) 6).getD j [])) ∧
    (∀ j, j < 4 → ((Cal.buildDays fmt plan).getD (10 + j) Cal.dayDflt).tasks
      = Cal.fillTasks ((Cal.chunkEvenly
          (Cal.blockBullets (Cal.stepOf plan 2) Cal.fallback3) 4).getD j [])) ∧
    (∀ a b c, Cal.blockBullets (Cal.stepOf plan 1) Cal.fallback2 = [a, b, c] →
      (((Cal.buildDays fmt plan).getD 4 Cal.dayDflt).tasks = [a] ∧
       ((Cal.buildDays fmt plan).getD 5 Cal.dayDflt).tasks = [b] ∧
       ((Cal.buildDays fmt plan).getD 6 Cal.dayDflt).tasks = [c]) ∧
      (((Cal.buildDays fmt plan).getD 7 Cal.dayDflt).tasks = [Cal.fillerTask] ∧
       ((Cal.buildDays fmt plan).getD 8 Cal.dayDflt).tasks = [Cal.fillerTask] ∧
       ((Cal.buildDays fmt plan).getD 9 Cal.dayDflt).tasks = [Cal.fillerTask])) := by
  obtain ⟨hx1, hx2, hx3⟩ := Cal.buildDays_tasks_extract fmt plan
  refine ⟨rfl, hx1, hx2, hx3, fun a b c h => ?_⟩
  have e0 := hx2 0 (by omega)
  have e1 := hx2 1 (by omega)
  have e2 := hx2 2 (by omega)
  have e3 := hx2 3 (by omega)
  have e4 := hx2 4 (by omega)
  have e5 := hx2 5 (by omega)
  rw [h] at e0 e1 e2 e3 e4 e5
  exact ⟨⟨e0, e1, e2⟩, e3, e4, e5⟩

set_option maxHeartbeats 1000000 in
/-- Claim C6: `buildDays(null)` yields 14 days whose every task comes
from the canned fallback list of the owning step position, with no
empty task bucket. -/
theorem c6_null_fallback (fmt : Nat → String) :
    ∀ j, j < 14 →
      ((Cal.buildDays fmt none).getD j Cal.dayDflt).tasks ≠ [] ∧
      ∀ t ∈ ((Cal.buildDays fmt none).getD j Cal.dayDflt).tasks,
        t ∈ (if j < 4 then Cal.fallback1
             else if j < 10 then Cal.fallback2 else Cal.fallback3) := by
  intro j hj
  interval_cases j <;>
    exact ⟨of_decide_eq_true rfl, of_decide_eq_true rfl⟩

/-- Witness for `c6_null_fallback` at day index 0 and the first canned
task. -/
theorem c6_null_fallback_witness :
    ((Cal.buildDays (fun _ => "") none).getD 0 Cal.dayDflt).tasks ≠ [] ∧
    "Write your one-liner (who + outcome + why you)."
      ∈ (if (0 : Nat) < 4 then Cal.fallback1
         else if (0 : Nat) < 10 then Cal.fallback2 else Cal.fallback3) :=
  ⟨(c6_null_fallback (fun _ => "") 0 (by decide)).1,
   (c6_null_fallback (fun _ => "") 0 (by decide)).2
     "Write your one-liner (who + outcome + why you)." (by decide)⟩

/-- Witness for `c2_round_robin` on a 5-item pool over 2 buckets, plus
the step-pool conjunct on a one-bullet plan. -/
theorem c2_round_robin_witness :
    ((Cal.chunkEvenly ["a", "b", "c", "d", "e"] 2).getD 0 []).length
        = 5 / 2 + (if 0 < 5 % 2 then 1 else 0) ∧
    "c" ∈ (Cal.chunkEvenly ["a", "b", "c", "d", "e"] 2).getD (2 % 2) [] ∧
    ((Cal.buildDays (fun _ => "") (some ⟨none, none, none,
        some [⟨none, JsVal.vNull, JsVal.vArr [JsVal.vStr "x"]⟩]⟩)).getD 0
          Cal.dayDflt).tasks
      = Cal.fillTasks ((Cal.chunkEvenly
          (Cal.normalizeBullets (Cal.stepHow (Cal.stepOf (some ⟨none, none, none,
              some [⟨none, JsVal.vNull, JsVal.vArr [JsVal.vStr "x"]⟩]⟩) 0))
            ++ Cal.normalizeBullets (Cal.stepWhat (Cal.stepOf (some ⟨none, none, none,
              some [⟨none, JsVal.vNull, JsVal.vArr [JsVal.vStr "x"]⟩]⟩) 0)))
          4).getD 0 []) := by
  refine ⟨?_, ?_, ?_⟩
  · exact (c2_round_robin ["a", "b", "c", "d", "e"] 2 (by decide)
      (fun _ => "") none).2.2.2.1 0 (by decide)
  · exact (c2_round_robin ["a", "b", "c", "d", "e"] 2 (by decide)
      (fun _ => "") none).2.2.1 2 (by decide)
  · exact (c2_round_robin [] 2 (by decide) (fun _ => "")
      (some ⟨none, none, none,
        some [⟨none, JsVal.vNull, JsVal.vArr [JsVal.vStr "x"]⟩]⟩)).2.2.2.2.2.2.1
      0 (by decide) (List.cons_ne_nil "x" [])

/-- Witness for `c7_filler`: a plan whose second step coerces to the
three-item pool `["t1", "t2", "t3"]`. -/
theorem c7_filler_witness :
    ((Cal.buildDays (fun _ => "") (some ⟨none, none, none,
        some [⟨none, JsVal.vNull, JsVal.vNull⟩,
          ⟨none, JsVal.vNull,
            JsVal.vArr [JsVal.vStr "t1", JsVal.vStr "t2", JsVal.vStr "t3"]⟩]⟩)).getD 4
          Cal.dayDflt).tasks = ["t1"] ∧
    ((Cal.buildDays (fun _ => "") (some ⟨none, none, none,
        some [⟨none, JsVal.vNull, JsVal.vNull⟩,
          ⟨none, JsVal.vNull,
            JsVal.vArr [JsVal.vStr "t1", JsVal.vStr "t2", JsVal.vStr "t3"]⟩]⟩)).getD 7
          Cal.dayDflt).tasks = [Cal.fillerTask] := by
  have h := (c7_filler (fun _ => "") (some ⟨none, none, none,
      some [⟨none, JsVal.vNull, JsVal.vNull⟩,
        ⟨none, JsVal.vNull,
          JsVal.vArr [JsVal.vStr "t1", JsVal.vStr "t2", JsVal.vStr "t3"]⟩]⟩)).2.2.2.2
    "t1" "t2" "t3" rfl
  exact ⟨h.1.1, h.2.1⟩

/-- Claim C3: `coercePlan` (the spec's `normalize`) is a total function
— no input value can make it fail — and for every raw value it returns
a plan with exactly 3 steps: the first up-to-3 entries of `raw.steps`
are coerced in order (`Gen.coerceStep` defaults the title to
`Step (i+1)`), entries beyond the third are discarded, and missing
entries are padded with empty-default steps. -/
theorem c3_normalizer_total (raw : JsVal) (ideaFb : String) (inpFb : Inputs)
    (freshId nowIso : String) :
    (Gen.coercePlan raw ideaFb inpFb freshId nowIso).steps.length = 3 ∧
    (Gen.coercePlan raw ideaFb inpFb freshId nowIso).steps
      = (withIdx ((rawStepsList raw).take 3) 0).map
          (fun p => Gen.coerceStep p.1 p.2)
        ++ (List.range (3 - ((rawStepsList raw).take 3).length)).map
          (fun j => defaultStep (((rawStepsList raw).take 3).length + j)) := by
  have hlen : ((withIdx ((rawStepsList raw).take 3) 0).map
      (fun p => Gen.coerceStep p.1 p.2)).length
      = ((rawStepsList raw).take 3).length := by
    rw [List.length_map, withIdx_length]
  have hle : ((rawStepsList raw).take 3).length ≤ 3 := by
    rw [List.length_take]
    omega
  have key : (Gen.coercePlan raw ideaFb inpFb freshId nowIso).steps
      = (withIdx ((rawStepsList raw).take 3) 0).map
          (fun p => Gen.coerceStep p.1 p.2)
        ++ (List.range (3 - ((rawStepsList raw).take 3).length)).map
          (fun j => defaultStep (((rawStepsList raw).take 3).length + j)) := by
    have hsteps : (Gen.coercePlan raw ideaFb inpFb freshId nowIso).steps
        = (padSteps ((withIdx ((rawStepsList raw).take 3) 0).map
            (fun p => Gen.coerceStep p.1 p.2))).take 3 := rfl
    rw [hsteps, padSteps_eq, hlen]
    apply List.take_of_length_le
    simp only [List.length_append, List.length_map, List.length_range, hlen]
    omega
  refine ⟨?_, key⟩
  rw [key]
  simp only [List.length_append, List.length_map, List.length_range, hlen]
  omega

/-- Claim C4 counterexample: on the array `[5]` the main page's
`toStrArray` — one of the two implementations of the spec's single
bullet coercion `toList` — drops the non-string element instead of
stringifying it, while the calendar page's `normalizeBullets` (and the
spec-modelled `toListSpec`) yield `["5"]`. -/
theorem c4_counterexample :
    Gen.toStrArray (.vArr [.vNum 5]) = [] ∧
    toListSpec (.vArr [.vNum 5]) = ["5"] ∧
    Cal.normalizeBullets (.vArr [.vNum 5]) = ["5"] ∧
    Gen.toStrArray (.vArr [.vNum 5]) ≠ toListSpec (.vArr [.vNum 5]) :=
  ⟨rfl, rfl, rfl, by decide⟩

/-- Claim C4 amended: the calendar page's `normalizeBullets` satisfies
the spec's bullet coercion exactly (all three branches); the main
page's `toStrArray` agrees with it on the string branch and on every
other non-array value, but on arrays it behaves as the spec's coercion
applied to only the *string* elements — non-string elements coerce to
`""` and are dropped rather than stringified. -/
theorem c4_amended :
    (∀ v, Cal.normalizeBullets v = toListSpec v) ∧
    (∀ xs, Gen.toStrArray (.vArr xs)
      = toListSpec (.vArr (xs.filter JsVal.isStr))) ∧
    (∀ v, v.isArr = false → Gen.toStrArray v = toListSpec v) := by
  refine ⟨fun v => ?_, fun xs => ?_, fun v hv => ?_⟩
  · cases v <;> rfl
  · induction xs with
    | nil => rfl
    | cons x xs ih =>
      simp only [Gen.toStrArray, toListSpec] at ih ⊢
      cases x <;>
        simp_all [safeStr, jsToString, JsVal.isStr, List.filter_cons]
  · cases v <;> first | rfl | simp [JsVal.isArr] at hv

/-- Witness for `c4_amended`: the non-array branch applied to a prose
string. -/
theorem c4_amended_witness :
    Gen.toStrArray (.vStr "- a\n2. b") = toListSpec (.vStr "- a\n2. b") :=
  c4_amended.2.2 (.vStr "- a\n2. b") rfl

/-- Claim C5 counterexample: two plans with the *same* `id` field (both
present and empty) but different ideas get different identities —
`plan?.id || plan?.idea` keys on truthiness, not on presence, so an
empty `id` falls through to the idea. -/
theorem c5_counterexample :
    (⟨some "", none, some "Coffee cart", none⟩ : Cal.CPlan).id
      = (⟨some "", none, some "Coffee Cart", none⟩ : Cal.CPlan).id ∧
    Cal.planId (some ⟨some "", none, some "Coffee cart", none⟩)
      ≠ Cal.planId (some ⟨some "", none, some "Coffee Cart", none⟩) :=
  ⟨rfl, by decide⟩

/-- Claim C5 amended: `planId` is deterministic, hashes `plan.id` when
it is present *and non-empty* (else `plan.idea` when non-empty, else
`"latest"`) with 32-bit FNV-1a over UTF-16 code units (offset basis
`0x811c9dc5`, prime `0x01000193`), and emits the unsigned lowercase hex
digest behind the fixed `plan_` namespace tag; it is case-sensitive
on the idea, and two plans sharing a non-empty `id` share identity
regardless of their ideas. -/
theorem c5_amended :
    (∀ p q : Option Cal.CPlan, p = q → Cal.planId p = Cal.planId q) ∧
    (∀ (p q : Cal.CPlan) (s : String), s ≠ "" → p.id = some s →
      q.id = some s → Cal.planId (some p) = Cal.planId (some q)) ∧
    (Cal.planBase none = "latest") ∧
    (Cal.fnvHash "a" = 0xe40c292c) ∧
    (Cal.planId (some ⟨some "x", none, none, none⟩) = "plan_fd0c5087") ∧
    (Cal.planId (some ⟨none, none, some "Coffee cart", none⟩)
      ≠ Cal.planId (some ⟨none, none, some "Coffee Cart", none⟩)) := by
  refine ⟨fun p q h => by rw [h], fun p q s hs hp hq => ?_, rfl,
    by decide, by decide, by decide⟩
  have hbase : Cal.planBase (some p) = Cal.planBase (some q) := by
    simp [Cal.planBase, strOr, hp, hq, hs]
  rw [Cal.planId, Cal.planId, hbase]

/-- Witness for `c5_amended`: two differently-worded plans with the
same non-empty id share an identity. -/
theorem c5_amended_witness :
    Cal.planId (some ⟨some "y", none, some "idea A", none⟩)
      = Cal.planId (some ⟨some "y", none, some "idea B", none⟩) :=
  c5_amended.2.1 ⟨some "y", none, some "idea A", none⟩
    ⟨some "y", none, some "idea B", none⟩ "y" (by decide) rfl rfl

/-- Claim C8 counterexample: after `resetChecks` *and* the write-through
persistence effect that the `setChecks({})` state update triggers, the
persisted entry for the plan identity is present again (it holds the
serialized empty mapping), not absent. -/
theorem c8_counterexample :
    ((Cal.persistChecksEffect (Cal.resetChecks
        ⟨none, "latest", [("d1_t0", true)],
          setStore emptyStore (Cal.checksKey "latest")
            "\x7b\"d1_t0\":true\x7d"⟩)).store (Cal.checksKey "latest"))
      ≠ none ∧
    ((Cal.persistChecksEffect (Cal.resetChecks
        ⟨none, "latest", [("d1_t0", true)],
          setStore emptyStore (Cal.checksKey "latest")
            "\x7b\"d1_t0\":true\x7d"⟩)).store (Cal.checksKey "latest"))
      = some "\x7b\x7d" :=
  ⟨by decide, by decide⟩

/-- Claim C8 amended: `resetChecks` itself empties the in-memory
mapping and deletes the persisted entry, but the write-through
persistence effect then runs on the fresh empty mapping and re-creates
the entry with the serialized empty object — so once the operation
completes the mapping is empty and the persisted entry is emptied, not
absent. -/
theorem c8_amended (st : Cal.CalState) :
    (Cal.resetChecks st).checks = [] ∧
    (Cal.resetChecks st).store (Cal.checksKey st.pid) = none ∧
    (Cal.persistChecksEffect (Cal.resetChecks st)).checks = [] ∧
    (Cal.persistChecksEffect (Cal.resetChecks st)).store
      (Cal.checksKey st.pid) = some "\x7b\x7d" := by
  refine ⟨rfl, ?_, rfl, ?_⟩
  · simp [Cal.resetChecks, removeStore]
  · simp only [Cal.persistChecksEffect, Cal.resetChecks, setStore, if_pos]
    rfl

/-- Claim C9: every failing generation — thrown transport error, non-ok
HTTP response, or unparseable response body — leaves the persisted
store (the latest-plan entry and every completion-state entry) exactly
as it was; the plan is written only after a fully successful
generation. -/
theorem c9_failure_preserves_store (serialize : NPlan → String)
    (freshId nowIso idea : String) (inputs : Inputs) (st : Gen.PageState) :
    (∀ msg, (Gen.onGenerate serialize freshId nowIso idea inputs
        (.threw msg) st).store = st.store) ∧
    (∀ status body, (Gen.onGenerate serialize freshId nowIso idea inputs
        (.resp false status body) st).store = st.store) ∧
    (∀ ok status, (Gen.onGenerate serialize freshId nowIso idea inputs
        (.resp ok status none) st).store = st.store) := by
  refine ⟨fun msg => ?_, fun status body => ?_, fun ok status => ?_⟩ <;>
    simp only [Gen.onGenerate] <;> split
  · rfl
  · rfl
  · rfl
  · rw [if_pos (Or.inl trivial)]
  · rfl
  · rw [if_pos (Or.inr trivial)]

/-- Claim C10: the server route's `ensureArrayOfStrings` returns `[]`
for every non-array input — including a single multi-line prose string,
with no newline splitting or marker stripping — and consequently a
response step whose `howTo` (or `whatThisDoes`) is a string yields the
empty list for that field in the plan built by the server's
`coercePlan`. -/
theorem c10_server_bullets :
    (∀ v : JsVal, v.isArr = false → Api.ensureArrayOfStrings v = []) ∧
    (Api.ensureArrayOfStrings (.vStr "- do this\n- then that") = []) ∧
    (∀ (raw : JsVal) (idea : String) (inputs : JsVal) (uid nowIso : String)
        (i : Nat) (s : JsVal),
      ((rawStepsList raw).take 3)[i]? = some s →
      (Api.coercePlan raw idea inputs uid nowIso).steps[i]?
        = some (Api.coerceStep i s)) ∧
    (∀ (raw : JsVal) (idea : String) (inputs : JsVal) (uid nowIso : String)
        (i : Nat) (s : JsVal),
      ((rawStepsList raw).take 3)[i]? = some s →
      (s.getF "howTo").isArr = false →
      ((Api.coercePlan raw idea inputs uid nowIso).steps[i]?).map
        (fun p => p.howTo) = some []) := by
  have h1 : ∀ v : JsVal, v.isArr = false → Api.ensureArrayOfStrings v = [] := by
    intro v hv
    cases v <;> first | rfl | simp [JsVal.isArr] at hv
  have h3 : ∀ (raw : JsVal) (idea : String) (inputs : JsVal)
      (uid nowIso : String) (i : Nat) (s : JsVal),
      ((rawStepsList raw).take 3)[i]? = some s →
      (Api.coercePlan raw idea inputs uid nowIso).steps[i]?
        = some (Api.coerceStep i s) := by
    intro raw idea inputs uid nowIso i s h
    have hi : i < ((rawStepsList raw).take 3).length :=
      (List.getElem?_eq_some.mp h).1
    have hsteps : (Api.coercePlan raw idea inputs uid nowIso).steps
        = padSteps ((withIdx ((rawStepsList raw).take 3) 0).map
            (fun p => Api.coerceStep p.1 p.2)) := rfl
    have hiL : i < ((withIdx ((rawStepsList raw).take 3) 0).map
        (fun p => Api.coerceStep p.1 p.2)).length := by
      rw [List.length_map, withIdx_length]
      exact hi
    rw [hsteps, padSteps_eq, List.getElem?_append, if_pos hiL,
      List.getElem?_map, withIdx_getElem?, h]
    simp
  refine ⟨h1, rfl, h3, fun raw idea inputs uid nowIso i s h hv => ?_⟩
  rw [h3 raw idea inputs uid nowIso i s h]
  rw [Option.map_some']
  have : (Api.coerceStep i s).howTo = Api.ensureArrayOfStrings (s.getF "howTo") := rfl
  rw [this, h1 _ hv]

/-- Witness for `c10_server_bullets`: a response whose first step's
`howTo` is a two-line prose string produces an empty `howTo` list. -/
theorem c10_server_bullets_witness :
    ((Api.coercePlan (.vObj [("steps", .vArr [.vObj [("howTo",
        .vStr "line one\nline two")]])]) "idea" (.vObj []) "uid"
        "now").steps[0]?).map (fun p => p.howTo) = some [] :=
  c10_server_bullets.2.2.2 (.vObj [("steps", .vArr [.vObj [("howTo",
      .vStr "line one\nline two")]])]) "idea" (.vObj []) "uid" "now" 0
    (.vObj [("howTo", .vStr "line one\nline two")]) rfl rfl
